import Mathlib

/-!
Shallow embedding of the two source files of the LitheServer syntax-test
repository (`src/syntax_test/example.c`, a toy single-threaded HTTP server,
and `src/syntax_test/example.cpp`, a collection of modern C++ demos), together
with theorems settling the claims about them.

Conventions of the embedding:
- C strings are Lean `String` / `List Char`; machine integers that only carry
  values (file descriptors, status codes, `ssize_t` results) are `Int`, sizes
  are `Nat`.  No arithmetic that could overflow occurs in the modelled code.
- Fallible operations return `Option`; a C++ `throw` is `none`.
- The single-threaded server main loop is modelled as a step relation on an
  explicit server-state record; environment choices (the result of `accept`,
  `recv`, signal arrival) are parameters of the step constructors.
-/

namespace LitheServer

/-! ### example.c, line 20: `#define MAX_BUFFER_SIZE 1024` -/

def MAX_BUFFER_SIZE : Nat := 1024

/-- Embedding of `http_request_t` (example.c lines 39-45).  The C struct has
fixed-size `char` arrays; here the fields are strings and the size bounds are
proved as theorems. -/
structure http_request_t where
  method : String
  path : String
  version : String
  headers : String
  body : String
deriving Repr, DecidableEq

instance : Inhabited http_request_t :=
  ⟨{ method := "", path := "", version := "", headers := "", body := "" }⟩

/-- Embedding of `http_response_t` (example.c lines 47-53). -/
structure http_response_t where
  status_code : Int
  status_message : String
  headers : String
  body : String
  content_length : Nat
deriving Repr, DecidableEq

/-! ### strtok_r with delimiter set "\r\n" (example.c lines 190, 208)

`strtok_r(s, "\r\n", &saveptr)` repeatedly returns the maximal nonempty runs
of characters that are neither CR nor LF; leading, trailing and repeated
delimiters are skipped, so the returned tokens are never empty. -/

def crlfDelim (c : Char) : Bool := c = '\r' || c = '\n'

/-- Token extraction with explicit fuel (structural recursion keeps the
function kernel-computable).  Each produced token consumes at least one
character, so any fuel of at least `s.length` gives the full token sequence;
`tokenizeAux_fuel_irrelevant` below proves the fuel is immaterial. -/
def tokenizeAux : Nat → List Char → List (List Char)
  | 0, _ => []
  | fuel + 1, s =>
    match s.dropWhile crlfDelim with
    | [] => []
    | c :: cs =>
      let tok := cs.takeWhile (fun x => !crlfDelim x)
      (c :: tok) :: tokenizeAux fuel (cs.drop tok.length)

/-- The full token sequence produced by repeated `strtok_r(_, "\r\n", _)`. -/
def tokenize (s : List Char) : List (List Char) :=
  tokenizeAux s.length s

theorem tokenizeAux_fuel_irrelevant (fuel1 : Nat) :
    ∀ (fuel2 : Nat) (s : List Char), s.length ≤ fuel1 → s.length ≤ fuel2 →
      tokenizeAux fuel1 s = tokenizeAux fuel2 s := by
  induction fuel1 with
  | zero =>
    intro fuel2 s h1 h2
    have hs : s = [] := List.eq_nil_of_length_eq_zero (Nat.le_zero.mp h1)
    subst hs
    cases fuel2 <;> rfl
  | succ f ih =>
    intro fuel2 s h1 h2
    cases fuel2 with
    | zero =>
      have hs : s = [] := List.eq_nil_of_length_eq_zero (Nat.le_zero.mp h2)
      subst hs
      rfl
    | succ f2 =>
      show tokenizeAux (f + 1) s = tokenizeAux (f2 + 1) s
      unfold tokenizeAux
      cases hdw : s.dropWhile crlfDelim with
      | nil => rfl
      | cons c cs =>
        have hlen : (c :: cs).length ≤ s.length :=
          hdw ▸ (List.dropWhile_suffix crlfDelim).length_le
        simp only [List.length_cons] at hlen
        have hrest : (cs.drop (cs.takeWhile (fun x => !crlfDelim x)).length).length ≤ cs.length := by
          rw [List.length_drop]; omega
        show (c :: cs.takeWhile (fun x => !crlfDelim x)) ::
            tokenizeAux f (cs.drop (cs.takeWhile (fun x => !crlfDelim x)).length) =
          (c :: cs.takeWhile (fun x => !crlfDelim x)) ::
            tokenizeAux f2 (cs.drop (cs.takeWhile (fun x => !crlfDelim x)).length)
        rw [ih f2 (cs.drop (cs.takeWhile (fun x => !crlfDelim x)).length)
          (by omega) (by omega)]

/-! ### sscanf(line, "%15s %255s %15s", ...) (example.c lines 197-198)

Each `%Ns` conversion skips whitespace, then reads at most `N` consecutive
non-whitespace characters (a longer token is split: the next conversion
continues inside it).  The conversion fails, stopping the count, exactly when
nothing but whitespace remains. -/

/-- The C `isspace` set in the default locale. -/
def cIsSpace (c : Char) : Bool :=
  c = ' ' || c = '\t' || c = '\n' || c = '\x0b' || c = '\x0c' || c = '\r'

/-- One `%Ns` conversion: `none` is a matching failure, otherwise the stored
token and the unconsumed remainder of the input. -/
def scanField (width : Nat) (s : List Char) : Option (List Char × List Char) :=
  let s1 := s.dropWhile cIsSpace
  match s1 with
  | [] => none
  | _ :: _ =>
    let tok := (s1.takeWhile (fun c => !cIsSpace c)).take width
    some (tok, s1.drop tok.length)

/-- The full request-line scan `sscanf(line, "%15s %255s %15s", method, path,
version)`; `some` exactly when the scan count is 3. -/
def scanRequestLine (line : List Char) : Option (String × String × String) :=
  match scanField 15 line with
  | none => none
  | some (m, r1) =>
    match scanField 255 r1 with
    | none => none
    | some (p, r2) =>
      match scanField 15 r2 with
      | none => none
      | some (v, _) => some (String.mk m, String.mk p, String.mk v)

/-! ### The header/body accumulation loop of parse_http_request
(example.c lines 207-224). -/

/-- One iteration of the `while ((line = strtok_r(NULL, "\r\n", &saveptr)))`
loop.  State: accumulated `headers`, accumulated `body`, the `in_headers`
flag. -/
def accumStep (st : String × String × Bool) (line : String) : String × String × Bool :=
  let (hs, bd, inHeaders) := st
  if line.length = 0 then (hs, bd, false)
  else if inHeaders then
    if hs.length + line.length + 2 < MAX_BUFFER_SIZE then
      (hs ++ line ++ "\n", bd, inHeaders)
    else (hs, bd, inHeaders)
  else
    if bd.length + line.length + 1 < MAX_BUFFER_SIZE then
      (hs, bd ++ line, inHeaders)
    else (hs, bd, inHeaders)

/-- The whole accumulation loop, started from the `strcpy(request->headers,
"")`, `strcpy(request->body, "")` state with `in_headers = 1`. -/
def accumLines (lines : List String) : String × String × Bool :=
  lines.foldl accumStep ("", "", true)

/-! ### parse_http_request (example.c lines 174-228)

The two pointer arguments are modelled by an `Option String` (NULL raw
request) and a flag telling whether the output pointer is NULL.  `strdup`
failure (out-of-memory) is not modelled.  The result is the C return value
(`0` or `-1`) together with the filled structure on success. -/

def parse_http_request (raw_request : Option String) (requestIsNull : Bool) :
    Int × Option http_request_t :=
  match raw_request with
  | none => (-1, none)
  | some raw =>
    if requestIsNull then (-1, none)
    else
      match tokenize raw.toList with
      | [] => (-1, none)
      | line :: rest =>
        match scanRequestLine line with
        | none => (-1, none)
        | some (m, p, v) =>
          let (hs, bd, _) := accumLines (rest.map String.mk)
          (0, some { method := m, path := p, version := v, headers := hs, body := bd })

/-! ### build_http_response (example.c lines 237-267) -/

/-- The `switch (status_code)` of example.c lines 242-247. -/
def statusMessageOf (status_code : Int) : String :=
  if status_code = 200 then "OK"
  else if status_code = 404 then "Not Found"
  else if status_code = 500 then "Internal Server Error"
  else "Unknown"

/-- The string the `snprintf` format of example.c lines 253-262 describes,
before truncation to the 1024-byte `headers` buffer. -/
def headerTemplate (status_code : Int) (content_type : Option String) (body : String) : String :=
  "HTTP/1.1 " ++ toString status_code ++ " " ++ statusMessageOf status_code ++ "\r\n" ++
  content_type.getD "" ++ "\r\n" ++
  "Content-Length: " ++ toString body.length ++ "\r\n" ++
  "Connection: close\r\n" ++
  "Server: QuickServer/1.0\r\n" ++
  "\r\n"

/-- snprintf into a buffer of size `n` stores at most `n - 1` characters plus
the terminating NUL. -/
def truncateTo (n : Nat) (s : String) : String := String.mk (s.data.take n)

/-- Embedding of `build_http_response`.  `content_type = none` models a NULL
pointer (printed as the empty string).  The `strcpy(response->body, body)` of
example.c line 265 writes `strlen(body) + 1` bytes into the fixed 1024-byte
`body` field, so the function is defined only for bodies shorter than
`MAX_BUFFER_SIZE`; the overflowing case has undefined behavior and is
modelled as `none`.  The `strcpy` into the 64-byte `status_message` field
always fits (the longest message is 22 bytes).  The headers are produced by
`snprintf` into the 1024-byte `headers` field, which stores at most 1023
characters. -/
def build_http_response (status_code : Int) (content_type : Option String)
    (body : String) : Option http_response_t :=
  if body.length < MAX_BUFFER_SIZE then
    some
      { status_code := status_code
        status_message := statusMessageOf status_code
        headers := truncateTo (MAX_BUFFER_SIZE - 1)
          (headerTemplate status_code content_type body)
        body := body
        content_length := body.length }
  else none

/-! ### handle_client_connection (example.c lines 126-166)

The function receives into a 1024-byte stack buffer, NUL-terminates, parses,
routes on the parsed path, and closes the client socket on every return path.
Its decision structure is embedded as a pure function of the environment
choices (the `recv` result and the buffer contents); the number of `close`
calls made on `client_socket` is returned alongside the outcome. -/

/-- Write of the NUL terminator `buffer[bytes_received] = 0` into the
fixed-size receive buffer; `none` models an out-of-bounds store. -/
def writeNulAt (buf : List Char) (i : Nat) : Option (List Char) :=
  if i < buf.length then some (buf.set i (Char.ofNat 0)) else none

/-- The C test `strncmp(request.path, "/api/", 5) == 0` (example.c line 159).
Because the literal has no NUL among its first five characters, the test
succeeds exactly when the first five characters of `path` are `/api/`. -/
def pathIsApi (path : String) : Bool := path.take 5 == "/api/"

/-- The four return paths of `handle_client_connection`. -/
inductive Dispatch where
  | recvFailure
  | parseFailure
  | apiRequest (request : http_request_t)
  | staticFile (file_path : String)
deriving Repr, DecidableEq

/-- Decision structure of `handle_client_connection`: the outcome, paired
with the number of `close(client_socket)` calls executed on that path.
`handle_api_request` and `serve_static_file` are declared but not defined in
example.c, so they are modelled as the opaque outcomes `apiRequest` and
`staticFile`. -/
def handle_client_connection (bytes_received : Int) (buffer : String) : Dispatch × Nat :=
  if bytes_received ≤ 0 then (Dispatch.recvFailure, 1)
  else
    let pr := parse_http_request (some buffer) false
    if pr.1 ≠ 0 then (Dispatch.parseFailure, 1)
    else
      let request := pr.2.getD default
      if pathIsApi request.path then (Dispatch.apiRequest request, 1)
      else (Dispatch.staticFile request.path, 1)

/-! ### The server main loop (example.c lines 303-354) as a step relation

Global state (example.c lines 55-59) plus a control-flow phase.  The phases
of a connection follow the body of `handle_client_connection`: receive,
parse, dispatch, close.  Environment nondeterminism (what `accept` and
`recv` return, signal arrival) is carried by step-constructor parameters.
`signal` delivery is modelled at the loop head; `cleanup_and_exit` on a
signal terminates the process.  No constructor creates a thread: the relation
is the sequential control flow of `main`. -/

/-- Embedding of `client_info_t` (example.c lines 32-37). -/
structure client_info_t where
  socket_fd : Int
  client_ip : String
  port : Nat
  connect_time : Nat
deriving Repr, DecidableEq

/-- Static storage is zero-initialized in C. -/
instance : Inhabited client_info_t := ⟨⟨0, "", 0, 0⟩⟩

/-- One accepted client connection together with the environment choices
made while serving it: the `recv` return value and the received bytes. -/
structure ClientConn where
  fd : Nat
  recvResult : Int
  recvData : String

/-- Position inside the body of `handle_client_connection`. -/
inductive HandlePhase where
  | atRecv
  | atParse
  | atDispatch
  | atClose

/-- Position of control in `main`. -/
inductive ServerPhase where
  | loopTop
  | handlingConn (c : ClientConn) (hp : HandlePhase)
  | stopped

/-- The global variables of example.c lines 55-59 plus control state.
`openConns` records the file descriptors of accepted client sockets not yet
closed (bookkeeping for the claims, not a C variable). -/
structure ServerState where
  server_socket : Int
  server_running : Bool
  clients : Nat → client_info_t
  client_count : Nat
  phase : ServerPhase
  openConns : List Nat

/-- State on entering the main loop after `create_server_socket` returned
the descriptor `sock` (example.c lines 323-335). -/
def initState (sock : Int) : ServerState :=
  { server_socket := sock
    server_running := true
    clients := fun _ => default
    client_count := 0
    phase := ServerPhase.loopTop
    openConns := [] }

/-- Small-step relation of the main loop.  Each constructor is one atomic
piece of the sequential control flow of example.c. -/
inductive Step : ServerState → ServerState → Prop where
  /-- The `while (server_running)` test fails; `cleanup_and_exit(0)` runs. -/
  | loopExit (s : ServerState) : s.phase = ServerPhase.loopTop →
      s.server_running = false →
      Step s { s with server_running := false, server_socket := -1,
                      phase := ServerPhase.stopped }
  /-- SIGINT or SIGTERM arrives at the loop head; `cleanup_and_exit(sig)`
  stops the flag, closes the server socket and exits the process. -/
  | signalStop (s : ServerState) : s.phase = ServerPhase.loopTop →
      Step s { s with server_running := false, server_socket := -1,
                      phase := ServerPhase.stopped }
  /-- `accept` succeeds: `handle_client_connection` is entered for the new
  socket before the loop can reach `accept` again. -/
  | acceptOk (s : ServerState) (c : ClientConn) : s.phase = ServerPhase.loopTop →
      s.server_running = true →
      Step s { s with phase := ServerPhase.handlingConn c HandlePhase.atRecv,
                      openConns := c.fd :: s.openConns }
  /-- `accept` fails with `EINTR`: `continue`. -/
  | acceptEintr (s : ServerState) : s.phase = ServerPhase.loopTop →
      s.server_running = true → Step s s
  /-- `accept` fails otherwise: `break`, then `cleanup_and_exit(0)`. -/
  | acceptFail (s : ServerState) : s.phase = ServerPhase.loopTop →
      s.server_running = true →
      Step s { s with server_running := false, server_socket := -1,
                      phase := ServerPhase.stopped }
  /-- The `recv` call (example.c line 140) returns `c.recvResult`. -/
  | recvStep (s : ServerState) (c : ClientConn) :
      s.phase = ServerPhase.handlingConn c HandlePhase.atRecv →
      Step s { s with phase := (ServerPhase.handlingConn c
        (if c.recvResult ≤ 0 then HandlePhase.atClose else HandlePhase.atParse)) }
  /-- The `parse_http_request` call (example.c line 152). -/
  | parseStep (s : ServerState) (c : ClientConn) :
      s.phase = ServerPhase.handlingConn c HandlePhase.atParse →
      Step s { s with phase := (ServerPhase.handlingConn c
        (if (parse_http_request (some c.recvData) false).1 ≠ 0 then HandlePhase.atClose
         else HandlePhase.atDispatch)) }
  /-- The routing call (example.c lines 159-163); `handle_api_request` and
  `serve_static_file` have no definition in example.c and, because the
  global variables are `static`, no code outside example.c can touch them. -/
  | dispatchStep (s : ServerState) (c : ClientConn) :
      s.phase = ServerPhase.handlingConn c HandlePhase.atDispatch →
      Step s { s with phase := ServerPhase.handlingConn c HandlePhase.atClose }
  /-- The `close(client_socket)` call ending the handler; control returns to
  the loop head. -/
  | closeStep (s : ServerState) (c : ClientConn) :
      s.phase = ServerPhase.handlingConn c HandlePhase.atClose →
      Step s { s with phase := ServerPhase.loopTop,
                      openConns := s.openConns.erase c.fd }

/-- States reachable from `s0` by the step relation. -/
inductive Reach (s0 : ServerState) : ServerState → Prop where
  | refl : Reach s0 s0
  | tail {s s' : ServerState} : Reach s0 s → Step s s' → Reach s0 s'

end LitheServer

/-! ## example.cpp: `namespace QuickServer`

The C++ demos are sequential in the modelled executions (the mutexes guard a
single thread of execution in `main`; `std::async` futures are modelled by
their computed values, as the claims direct), so every operation is embedded
as a pure function, with member functions threading the object state. -/

namespace QuickServer

/-! ### SmartArray (example.cpp lines 28-143)

`data_` is a `unique_ptr<T[]>`; slots are value-initialized, which the
embedding renders as `default`.  The array storage is modelled as a total
function from indices so that reads beyond `size_` see the value-initialized
contents, exactly as a fresh `make_unique<T[]>` buffer does.  The mutex
only serializes the already-sequential modelled execution and has no
behavioural content here. -/

structure SmartArray (T : Type) where
  data_ : Nat → T
  size_ : Nat
  capacity_ : Nat

/-- The constructor `explicit SmartArray(size_t initial_capacity = 10)`
(example.cpp lines 38-41). -/
def SmartArray.create (T : Type) [Inhabited T] (initial_capacity : Nat) : SmartArray T :=
  { data_ := fun _ => default, size_ := 0, capacity_ := initial_capacity }

/-- The private `resize(new_capacity)` (example.cpp lines 135-142): a fresh
value-initialized buffer receives the first `size_` elements; `capacity_` is
updated, `size_` is not. -/
def SmartArray.resize {T : Type} [Inhabited T] (a : SmartArray T) (new_capacity : Nat) :
    SmartArray T :=
  { data_ := fun i => if i < a.size_ then a.data_ i else default
    size_ := a.size_
    capacity_ := new_capacity }

/-- `push_back(const T&)` (example.cpp lines 72-78): grow by doubling when
full, then store at index `size_` and increment `size_`. -/
def SmartArray.push_back {T : Type} [Inhabited T] (a : SmartArray T) (item : T) :
    SmartArray T :=
  let a1 := if a.size_ ≥ a.capacity_ then a.resize (a.capacity_ * 2) else a
  { a1 with data_ := fun i => if i = a1.size_ then item else a1.data_ i
            size_ := a1.size_ + 1 }

/-- Both overloads of `operator[]` (example.cpp lines 91-103): the thrown
`std::out_of_range` is `none`; the object is returned unchanged (the const
and non-const bodies perform no mutation). -/
def SmartArray.opIndex {T : Type} (a : SmartArray T) (index : Nat) :
    Option T × SmartArray T :=
  (if index ≥ a.size_ then none else some (a.data_ index), a)

/-- A sequence of `push_back` calls. -/
def SmartArray.pushAll {T : Type} [Inhabited T] (a : SmartArray T) (vs : List T) :
    SmartArray T :=
  vs.foldl SmartArray.push_back a

/-! ### StrongType / User (example.cpp lines 204-263) -/

/-- `StrongType<T, Tag>` (example.cpp lines 205-225); `get()` returns the
wrapped value. -/
structure StrongType (T : Type) (Tag : Type) where
  value_ : T
deriving DecidableEq

def StrongType.get {T Tag : Type} (s : StrongType T Tag) : T := s.value_

structure UserIdTag
structure UserNameTag

/-- `using UserId = StrongType<uint64_t, struct UserIdTag>`; the `uint64_t`
is modelled as `Nat` (ids are only compared, never computed with). -/
abbrev UserId := StrongType Nat UserIdTag

abbrev UserName := StrongType String UserNameTag

/-- The `User` class (example.cpp lines 232-263).  `created_at_` is an opaque
timestamp (wall-clock time is environment data). -/
structure User where
  id_ : UserId
  name_ : UserName
  email_ : String
  is_active_ : Bool
  created_at_ : Nat

def User.id (u : User) : UserId := u.id_

/-! ### AsyncUserService (example.cpp lines 295-343)

Both member functions run their lambda under the `users_mutex_`; the claims
direct that the returned `std::future` be modelled by its computed value, so
each operation is the pure state transformer computed by the lambda body. -/

structure AsyncUserService where
  users_ : List User

/-- `find_user_async` (example.cpp lines 302-316): `std::find_if` over
`users_`, returning a copy of the first user with the requested id, or
`nullopt`; the service state is untouched (shared lock, no mutation). -/
def AsyncUserService.find_user_async (svc : AsyncUserService) (id : UserId) :
    Option User × AsyncUserService :=
  (svc.users_.find? (fun user => user.id_.value_ == id.value_), svc)

/-- `add_user_async` (example.cpp lines 319-335): `std::any_of` duplicate-id
check, then `emplace_back` and `true`, or `false` with no change. -/
def AsyncUserService.add_user_async (svc : AsyncUserService) (user : User) :
    Bool × AsyncUserService :=
  let userExists := svc.users_.any (fun existing => existing.id_.value_ == user.id_.value_)
  if !userExists then (true, { svc with users_ := svc.users_ ++ [user] })
  else (false, svc)

end QuickServer

/-! ## Helper lemmas -/

namespace QuickServer

theorem SmartArray.push_back_size {T : Type} [Inhabited T] (a : SmartArray T) (v : T) :
    (a.push_back v).size_ = a.size_ + 1 := by
  unfold SmartArray.push_back
  split <;> simp [SmartArray.resize]

theorem SmartArray.push_back_data_lt {T : Type} [Inhabited T] (a : SmartArray T) (v : T)
    (i : Nat) (h : i < a.size_) : (a.push_back v).data_ i = a.data_ i := by
  unfold SmartArray.push_back
  split
  · show (if i = (a.resize (a.capacity_ * 2)).size_ then v
      else (a.resize (a.capacity_ * 2)).data_ i) = a.data_ i
    simp only [SmartArray.resize]
    rw [if_neg (by omega), if_pos h]
  · show (if i = a.size_ then v else a.data_ i) = a.data_ i
    rw [if_neg (by omega)]

theorem SmartArray.push_back_data_last {T : Type} [Inhabited T] (a : SmartArray T) (v : T) :
    (a.push_back v).data_ a.size_ = v := by
  unfold SmartArray.push_back
  split <;> simp [SmartArray.resize]

theorem SmartArray.pushAll_size {T : Type} [Inhabited T] (vs : List T) (a : SmartArray T) :
    (a.pushAll vs).size_ = a.size_ + vs.length := by
  induction vs generalizing a with
  | nil => simp [SmartArray.pushAll]
  | cons v tl ih =>
    have h := ih (a.push_back v)
    simp only [SmartArray.pushAll, List.foldl_cons] at h ⊢
    rw [h, SmartArray.push_back_size, List.length_cons]
    omega

theorem SmartArray.pushAll_data_old {T : Type} [Inhabited T] (vs : List T) (a : SmartArray T)
    (i : Nat) (h : i < a.size_) : (a.pushAll vs).data_ i = a.data_ i := by
  induction vs generalizing a with
  | nil => simp [SmartArray.pushAll]
  | cons v tl ih =>
    have h1 := ih (a.push_back v) (by rw [SmartArray.push_back_size]; omega)
    simp only [SmartArray.pushAll, List.foldl_cons] at h1 ⊢
    rw [h1, SmartArray.push_back_data_lt a v i h]

theorem SmartArray.pushAll_data_new {T : Type} [Inhabited T] (vs : List T) (a : SmartArray T) :
    ∀ j (hj : j < vs.length), (a.pushAll vs).data_ (a.size_ + j) = vs.get ⟨j, hj⟩ := by
  induction vs generalizing a with
  | nil => intro j hj; simp at hj
  | cons v tl ih =>
    intro j hj
    match j with
    | 0 =>
      have h1 := SmartArray.pushAll_data_old tl (a.push_back v) a.size_
        (by rw [SmartArray.push_back_size]; omega)
      simp only [SmartArray.pushAll, List.foldl_cons] at h1 ⊢
      rw [Nat.add_zero, h1, SmartArray.push_back_data_last]
      rfl
    | Nat.succ j' =>
      have h1 := ih (a.push_back v) j' (by simp at hj; omega)
      simp only [SmartArray.pushAll, List.foldl_cons] at h1 ⊢
      rw [SmartArray.push_back_size] at h1
      have harith : a.size_ + (j' + 1) = a.size_ + 1 + j' := by omega
      rw [harith, h1]
      rfl

theorem find?_eq_some_first {α : Type} (p : α → Bool) :
    ∀ (l : List α) (x : α), l.find? p = some x →
      p x = true ∧ ∃ pre post, l = pre ++ x :: post ∧ ∀ w ∈ pre, p w = false := by
  intro l
  induction l with
  | nil => intro x h; simp [List.find?] at h
  | cons a tl ih =>
    intro x h
    by_cases hpa : p a = true
    · rw [List.find?_cons_of_pos _ hpa] at h
      obtain rfl : a = x := Option.some.inj h
      exact ⟨hpa, [], tl, rfl, by simp⟩
    · rw [List.find?_cons_of_neg _ (by simpa using hpa)] at h
      obtain ⟨hp, pre, post, heq, hpre⟩ := ih x h
      refine ⟨hp, a :: pre, post, by rw [heq]; rfl, ?_⟩
      intro w hw
      rcases List.mem_cons.mp hw with rfl | hw2
      · simpa using hpa
      · exact hpre w hw2

end QuickServer

namespace QuickServer

theorem add_user_async_eq_of_any_true (svc : AsyncUserService) (user : User)
    (h : (svc.users_.any fun existing => existing.id_.value_ == user.id_.value_) = true) :
    svc.add_user_async user = (false, svc) := by
  unfold AsyncUserService.add_user_async
  rw [h]
  rfl

theorem add_user_async_eq_of_any_false (svc : AsyncUserService) (user : User)
    (h : (svc.users_.any fun existing => existing.id_.value_ == user.id_.value_) = false) :
    svc.add_user_async user = (true, { svc with users_ := svc.users_ ++ [user] }) := by
  unfold AsyncUserService.add_user_async
  rw [h]
  rfl

theorem any_id_iff (users : List User) (user : User) :
    (users.any fun existing => existing.id_.value_ == user.id_.value_) = true ↔
      ∃ u ∈ users, u.id.get = user.id.get := by
  rw [List.any_eq_true]
  constructor
  · rintro ⟨u, hu, hbeq⟩
    exact ⟨u, hu, by simpa [User.id, StrongType.get] using hbeq⟩
  · rintro ⟨u, hu, heq⟩
    exact ⟨u, hu, by simpa [User.id, StrongType.get] using heq⟩

end QuickServer

open LitheServer QuickServer

/-- A concrete user for witness statements. -/
def demoUser : User :=
  { id_ := ⟨1001⟩, name_ := ⟨"zhangsan"⟩, email_ := "zhangsan@example.com",
    is_active_ := true, created_at_ := 0 }

/-- C3: `AsyncUserService::add_user_async(user)` (future modelled by its
computed value) returns `true` and appends `user` to `users_` exactly when no
stored user has the same id (compared via `id().get()`); with such a user
present it returns `false` and leaves `users_` unchanged. -/
theorem add_user_async_spec (svc : AsyncUserService) (user : User) :
    (((svc.add_user_async user).1 = true ∧
        (svc.add_user_async user).2.users_ = svc.users_ ++ [user]) ↔
      ¬∃ u ∈ svc.users_, u.id.get = user.id.get)
    ∧ ((∃ u ∈ svc.users_, u.id.get = user.id.get) →
        (svc.add_user_async user).1 = false ∧ (svc.add_user_async user).2 = svc) := by
  rcases Bool.eq_false_or_eq_true
      (svc.users_.any fun existing => existing.id_.value_ == user.id_.value_) with hany | hany
  case inl =>
    have heq := add_user_async_eq_of_any_true svc user hany
    have hex := (any_id_iff svc.users_ user).mp hany
    constructor
    · constructor
      · rintro ⟨hfst, -⟩
        rw [heq] at hfst
        exact Bool.noConfusion hfst
      · intro hno; exact absurd hex hno
    · intro _; rw [heq]
      exact ⟨rfl, rfl⟩
  case inr =>
    have heq := add_user_async_eq_of_any_false svc user hany
    have hno : ¬∃ u ∈ svc.users_, u.id.get = user.id.get := by
      intro hex
      rw [(any_id_iff svc.users_ user).mpr hex] at hany
      exact Bool.noConfusion hany
    constructor
    · constructor
      · intro _; exact hno
      · intro _; rw [heq]
        exact ⟨rfl, rfl⟩
    · intro hex; exact absurd hex hno

/-- Witness for C3 at a concrete service: adding a user whose id is already
stored fails and leaves the service unchanged. -/
theorem add_user_async_spec_witness :
    ((AsyncUserService.mk [demoUser]).add_user_async demoUser).1 = false ∧
    ((AsyncUserService.mk [demoUser]).add_user_async demoUser).2 =
      AsyncUserService.mk [demoUser] :=
  (add_user_async_spec (AsyncUserService.mk [demoUser]) demoUser).2
    ⟨demoUser, by simp, rfl⟩

/-- C4: `AsyncUserService::find_user_async(id)` (future modelled by its
computed value) returns the first stored user with the requested id when one
exists, `nullopt` otherwise, and never modifies `users_`. -/
theorem find_user_async_spec (svc : AsyncUserService) (id : UserId) :
    (∀ u, (svc.find_user_async id).1 = some u →
        u.id.get = id.get ∧
        ∃ pre post, svc.users_ = pre ++ u :: post ∧ ∀ w ∈ pre, w.id.get ≠ id.get)
    ∧ ((svc.find_user_async id).1 = none ↔ ∀ u ∈ svc.users_, u.id.get ≠ id.get)
    ∧ (svc.find_user_async id).2 = svc := by
  refine ⟨?_, ?_, rfl⟩
  · intro u hu
    obtain ⟨hp, pre, post, heq, hpre⟩ := find?_eq_some_first _ _ u hu
    refine ⟨by simpa [User.id, StrongType.get] using hp, pre, post, heq, ?_⟩
    intro w hw
    simpa [User.id, StrongType.get] using hpre w hw
  · constructor
    · intro hnone u hu
      have hfind : svc.users_.find?
          (fun user => user.id_.value_ == id.value_) = none := hnone
      have := List.find?_eq_none.mp hfind u hu
      simpa [User.id, StrongType.get] using this
    · intro hall
      show svc.users_.find? (fun user => user.id_.value_ == id.value_) = none
      apply List.find?_eq_none.mpr
      intro u hu
      simpa [User.id, StrongType.get] using hall u hu

/-- Witness for C4: searching an empty service yields `nullopt`. -/
theorem find_user_async_spec_witness :
    ((AsyncUserService.mk []).find_user_async ⟨1001⟩).1 = none :=
  (find_user_async_spec (AsyncUserService.mk []) ⟨1001⟩).2.1.mpr (by simp)

/-- C5: `SmartArray<T>` behaves as a dynamic array: from a fresh array of
initial capacity `c >= 1`, after pushing `v_1 ... v_n` the size is `n` and
`operator[](i)` yields `v_(i+1)` for every `i < n`; `push_back` on a full
array first doubles the capacity via `resize(capacity_ * 2)`, preserving the
stored elements in order, before storing the new element. -/
theorem smartArray_dynamic_array_spec {T : Type} [Inhabited T] (c : Nat) (hc : 1 ≤ c)
    (vs : List T) :
    ((SmartArray.create T c).pushAll vs).size_ = vs.length
    ∧ (∀ i (hi : i < vs.length),
        (((SmartArray.create T c).pushAll vs).opIndex i).1 = some (vs.get ⟨i, hi⟩))
    ∧ (∀ (a : SmartArray T) (v : T), a.size_ = a.capacity_ →
        (a.push_back v).capacity_ = a.capacity_ * 2
        ∧ (∀ i, i < a.size_ → (a.push_back v).data_ i = a.data_ i)
        ∧ (a.push_back v).data_ a.size_ = v
        ∧ (a.push_back v).size_ = a.size_ + 1) := by
  have hsize : ((SmartArray.create T c).pushAll vs).size_ = vs.length := by
    rw [SmartArray.pushAll_size]
    show 0 + vs.length = vs.length
    omega
  refine ⟨hsize, ?_, ?_⟩
  · intro i hi
    have hdata : ((SmartArray.create T c).pushAll vs).data_ (0 + i) = vs.get ⟨i, hi⟩ :=
      SmartArray.pushAll_data_new vs (SmartArray.create T c) i hi
    rw [Nat.zero_add] at hdata
    unfold SmartArray.opIndex
    rw [if_neg (by omega)]
    show some (((SmartArray.create T c).pushAll vs).data_ i) = some (vs.get ⟨i, hi⟩)
    rw [hdata]
  · intro a v hfull
    have hcap : (a.push_back v).capacity_ = a.capacity_ * 2 := by
      unfold SmartArray.push_back
      rw [if_pos (by omega)]
      rfl
    exact ⟨hcap, fun i hi => SmartArray.push_back_data_lt a v i hi,
      SmartArray.push_back_data_last a v, SmartArray.push_back_size a v⟩

/-- Witness for C5 at capacity 2 and three pushes (forcing one resize). -/
theorem smartArray_dynamic_array_spec_witness :
    ((SmartArray.create Nat 2).pushAll [4, 9, 16]).size_ = 3 ∧
    (((SmartArray.create Nat 2).pushAll [4, 9, 16]).opIndex 2).1 = some 16 := by
  have h := smartArray_dynamic_array_spec 2 (by decide) [4, 9, 16]
  refine ⟨h.1, ?_⟩
  have h2 := h.2.1 2 (by decide)
  simpa using h2

/-- C10: both overloads of `SmartArray<T>::operator[]` throw
`std::out_of_range` exactly when the index reaches the current size; below
the size they return the stored element and leave the array unchanged. -/
theorem smartArray_opIndex_spec {T : Type} (a : SmartArray T) (index : Nat) :
    ((a.opIndex index).1 = none ↔ a.size_ ≤ index)
    ∧ (index < a.size_ → (a.opIndex index).1 = some (a.data_ index))
    ∧ (a.opIndex index).2 = a := by
  refine ⟨?_, ?_, rfl⟩
  · unfold SmartArray.opIndex
    constructor
    · intro hnone
      by_contra hlt
      rw [if_neg hlt] at hnone
      exact Option.noConfusion hnone
    · intro hge
      rw [if_pos hge]
  · intro hlt
    unfold SmartArray.opIndex
    rw [if_neg (by omega)]

/-- Witness for C10: reading index 0 of a one-element array succeeds. -/
theorem smartArray_opIndex_spec_witness :
    ((((SmartArray.create Nat 10).push_back 5).opIndex 0).1 = some 5) := by
  have h := (smartArray_opIndex_spec ((SmartArray.create Nat 10).push_back 5) 0).2.1
    (by rw [SmartArray.push_back_size]; omega)
  simpa using h

namespace LitheServer

theorem accumStep_inv (st : String × String × Bool) (line : String)
    (h1 : st.1.length < MAX_BUFFER_SIZE) (h2 : st.2.1.length < MAX_BUFFER_SIZE) :
    (accumStep st line).1.length < MAX_BUFFER_SIZE ∧
    (accumStep st line).2.1.length < MAX_BUFFER_SIZE := by
  obtain ⟨hs, bd, f⟩ := st
  simp only at h1 h2
  simp only [accumStep]
  by_cases hl : line.length = 0
  · rw [if_pos hl]
    exact ⟨h1, h2⟩
  rw [if_neg hl]
  by_cases hf : f = true
  · rw [if_pos hf]
    by_cases hg : hs.length + line.length + 2 < MAX_BUFFER_SIZE
    · rw [if_pos hg]
      refine ⟨?_, h2⟩
      show (hs ++ line ++ "\n").length < MAX_BUFFER_SIZE
      rw [String.length_append, String.length_append]
      have hone : ("\n" : String).length = 1 := rfl
      omega
    · rw [if_neg hg]
      exact ⟨h1, h2⟩
  · rw [if_neg hf]
    by_cases hg : bd.length + line.length + 1 < MAX_BUFFER_SIZE
    · rw [if_pos hg]
      refine ⟨h1, ?_⟩
      show (bd ++ line).length < MAX_BUFFER_SIZE
      rw [String.length_append]
      omega
    · rw [if_neg hg]
      exact ⟨h1, h2⟩

theorem accum_foldl_inv (lines : List String) :
    ∀ (st : String × String × Bool),
      st.1.length < MAX_BUFFER_SIZE → st.2.1.length < MAX_BUFFER_SIZE →
      ((lines.foldl accumStep st).1.length < MAX_BUFFER_SIZE ∧
       (lines.foldl accumStep st).2.1.length < MAX_BUFFER_SIZE) := by
  induction lines with
  | nil => intro st h1 h2; exact ⟨h1, h2⟩
  | cons line tl ih =>
    intro st h1 h2
    rw [List.foldl_cons]
    obtain ⟨hstep1, hstep2⟩ := accumStep_inv st line h1 h2
    exact ih (accumStep st line) hstep1 hstep2

end LitheServer

/-- C2: request handling stays inside the fixed 1024-byte buffers: the NUL
terminator written at index `bytes_received` (at most `MAX_BUFFER_SIZE - 1`,
the count passed to `recv`) is in bounds, and the accumulation loops of
`parse_http_request` preserve `strlen < MAX_BUFFER_SIZE` for both the
`headers` and the `body` field, whatever lines arrive. -/
theorem request_buffers_in_bounds :
    (∀ (buffer : List Char) (bytes_received : Nat),
        buffer.length = MAX_BUFFER_SIZE → bytes_received ≤ MAX_BUFFER_SIZE - 1 →
        (writeNulAt buffer bytes_received).isSome = true)
    ∧ (∀ lines : List String,
        (accumLines lines).1.length < MAX_BUFFER_SIZE ∧
        (accumLines lines).2.1.length < MAX_BUFFER_SIZE) := by
  constructor
  · intro buffer bytes_received hlen hbr
    unfold writeNulAt
    rw [if_pos ?_]
    · rfl
    · rw [hlen]
      have hmax : MAX_BUFFER_SIZE = 1024 := rfl
      omega
  · intro lines
    exact accum_foldl_inv lines ("", "", true) (by decide) (by decide)

/-- Witness for C2: a full-size buffer with the maximal byte count, and one
concrete header line. -/
theorem request_buffers_in_bounds_witness :
    (writeNulAt (List.replicate MAX_BUFFER_SIZE ' ') 1023).isSome = true ∧
    (accumLines ["Host: example.com"]).1.length < MAX_BUFFER_SIZE :=
  ⟨request_buffers_in_bounds.1 (List.replicate MAX_BUFFER_SIZE ' ') 1023
      (List.length_replicate MAX_BUFFER_SIZE ' ') (by decide),
   (request_buffers_in_bounds.2 ["Host: example.com"]).1⟩

namespace LitheServer

theorem scanField_length (width : Nat) (s tok rest : List Char)
    (h : scanField width s = some (tok, rest)) : tok.length ≤ width := by
  simp only [scanField] at h
  split at h
  · exact Option.noConfusion h
  · simp only [Option.some.injEq, Prod.mk.injEq] at h
    obtain ⟨htok, -⟩ := h
    rw [← htok, List.length_take]
    exact min_le_left _ _

theorem scanRequestLine_lengths (line : List Char) (m p v : String)
    (h : scanRequestLine line = some (m, p, v)) :
    m.length ≤ 15 ∧ p.length ≤ 255 ∧ v.length ≤ 15 := by
  unfold scanRequestLine at h
  split at h
  · exact Option.noConfusion h
  rename_i mt r1 h1
  split at h
  · exact Option.noConfusion h
  rename_i pt r2 h2
  split at h
  · exact Option.noConfusion h
  rename_i vt r3 h3
  simp only [Option.some.injEq, Prod.mk.injEq] at h
  obtain ⟨hm, hp, hv⟩ := h
  subst hm; subst hp; subst hv
  exact ⟨scanField_length 15 line mt r1 h1,
    scanField_length 255 r1 pt r2 h2, scanField_length 15 r2 vt r3 h3⟩

theorem tokenize_eq_nil_iff (s : List Char) :
    tokenize s = [] ↔ ∀ c ∈ s, crlfDelim c = true := by
  have hstep : tokenize s = [] ↔ s.dropWhile crlfDelim = [] := by
    unfold tokenize
    cases s with
    | nil => exact ⟨fun _ => rfl, fun _ => rfl⟩
    | cons a as =>
      show tokenizeAux (as.length + 1) (a :: as) = [] ↔ _
      unfold tokenizeAux
      cases hdw : (a :: as).dropWhile crlfDelim with
      | nil => exact ⟨fun _ => rfl, fun _ => rfl⟩
      | cons c cs =>
        constructor
        · intro hcontra; exact List.noConfusion hcontra
        · intro hcontra; exact List.noConfusion hcontra
  rw [hstep, List.dropWhile_eq_nil_iff]

theorem parse_http_request_cases (raw_request : Option String) (requestIsNull : Bool) :
    parse_http_request raw_request requestIsNull = (-1, none) ∨
    ∃ req, parse_http_request raw_request requestIsNull = (0, some req) := by
  rcases raw_request with - | raw
  · exact Or.inl rfl
  cases requestIsNull with
  | true => exact Or.inl rfl
  | false =>
    rcases htok : tokenize raw.toList with - | ⟨line, rest⟩
    · refine Or.inl ?_
      simp only [parse_http_request]
      rw [htok]
      rfl
    · rcases hscan : scanRequestLine line with - | ⟨⟨m, p, v⟩⟩
      · refine Or.inl ?_
        simp only [parse_http_request]
        rw [htok]
        simp only [hscan]
        rfl
      · rcases haccum : accumLines (rest.map String.mk) with ⟨hs, bd, fl⟩
        refine Or.inr ⟨{ method := m, path := p, version := v, headers := hs, body := bd }, ?_⟩
        simp only [parse_http_request]
        rw [htok]
        simp only [hscan, haccum]
        rfl

end LitheServer

namespace LitheServer

theorem parse_http_request_nil_tok (raw : String) (htok : tokenize raw.toList = []) :
    parse_http_request (some raw) false = (-1, none) := by
  simp only [parse_http_request]
  rw [htok]
  rfl

theorem parse_http_request_bad_line (raw : String) (line : List Char)
    (rest : List (List Char)) (htok : tokenize raw.toList = line :: rest)
    (hscan : scanRequestLine line = none) :
    parse_http_request (some raw) false = (-1, none) := by
  simp only [parse_http_request]
  rw [htok]
  simp only [hscan]
  rfl

theorem parse_http_request_success (raw : String) (line : List Char)
    (rest : List (List Char)) (m p v : String)
    (htok : tokenize raw.toList = line :: rest)
    (hscan : scanRequestLine line = some (m, p, v)) :
    parse_http_request (some raw) false =
      (0, some { method := m, path := p, version := v,
                 headers := (accumLines (rest.map String.mk)).1,
                 body := (accumLines (rest.map String.mk)).2.1 }) := by
  rcases haccum : accumLines (rest.map String.mk) with ⟨hs, bd, fl⟩
  simp only [parse_http_request]
  rw [htok]
  simp only [hscan, haccum]
  rfl

end LitheServer

/-- C9: `parse_http_request` returns `-1` exactly when the raw request is
NULL, the output pointer is NULL, the request has no first line (every
character is a `"\r\n"` delimiter), or the first line does not yield three
scannable fields for method, path and version; otherwise it returns `0` with
the stored method at most 15, path at most 255 and version at most 15
characters (the `sscanf` field widths). -/
theorem parse_http_request_spec (raw_request : Option String) (requestIsNull : Bool) :
    ((parse_http_request raw_request requestIsNull).1 = -1 ↔
      (raw_request = none ∨ requestIsNull = true ∨
        (∃ r, raw_request = some r ∧ ∀ c ∈ r.toList, crlfDelim c = true) ∨
        (∃ r line rest, raw_request = some r ∧ tokenize r.toList = line :: rest ∧
          scanRequestLine line = none)))
    ∧ ((parse_http_request raw_request requestIsNull).1 = -1 ∨
        ((parse_http_request raw_request requestIsNull).1 = 0 ∧
         ∃ req, (parse_http_request raw_request requestIsNull).2 = some req ∧
           req.method.length ≤ 15 ∧ req.path.length ≤ 255 ∧
           req.version.length ≤ 15)) := by
  rcases raw_request with - | raw
  · exact ⟨⟨fun _ => Or.inl rfl, fun _ => rfl⟩, Or.inl rfl⟩
  cases requestIsNull with
  | true => exact ⟨⟨fun _ => Or.inr (Or.inl rfl), fun _ => rfl⟩, Or.inl rfl⟩
  | false =>
    rcases htok : tokenize raw.toList with - | ⟨line, rest⟩
    · rw [parse_http_request_nil_tok raw htok]
      exact ⟨⟨fun _ => Or.inr (Or.inr (Or.inl
          ⟨raw, rfl, (tokenize_eq_nil_iff raw.toList).mp htok⟩)),
        fun _ => rfl⟩, Or.inl rfl⟩
    · rcases hscan : scanRequestLine line with - | ⟨⟨m, p, v⟩⟩
      · rw [parse_http_request_bad_line raw line rest htok hscan]
        exact ⟨⟨fun _ => Or.inr (Or.inr (Or.inr ⟨raw, line, rest, rfl, htok, hscan⟩)),
          fun _ => rfl⟩, Or.inl rfl⟩
      · rw [parse_http_request_success raw line rest m p v htok hscan]
        constructor
        · constructor
          · intro h0
            have h0i : (0 : Int) = -1 := h0
            exact absurd h0i (by decide)
          · rintro (hnone | htrue | ⟨r, hr, hall⟩ |
              ⟨r, line2, rest2, hr, htok2, hscan2⟩)
            · exact Option.noConfusion hnone
            · exact Bool.noConfusion htrue
            · obtain rfl : raw = r := Option.some.inj hr
              rw [(tokenize_eq_nil_iff raw.toList).mpr hall] at htok
              exact List.noConfusion htok
            · obtain rfl : raw = r := Option.some.inj hr
              rw [htok] at htok2
              obtain rfl : line = line2 := (List.cons.inj htok2).1
              rw [hscan] at hscan2
              exact Option.noConfusion hscan2
        · exact Or.inr ⟨rfl, _, rfl, scanRequestLine_lengths line m p v hscan⟩

/-- Witness for C9: a NULL raw request yields `-1`. -/
theorem parse_http_request_spec_witness :
    (parse_http_request none false).1 = -1 :=
  (parse_http_request_spec none false).1.mpr (Or.inl rfl)

namespace LitheServer

theorem pathIsApi_iff (path : String) : pathIsApi path = true ↔ path.take 5 = "/api/" := by
  unfold pathIsApi
  exact beq_iff_eq

theorem handle_close_once (bytes_received : Int) (buffer : String) :
    (handle_client_connection bytes_received buffer).2 = 1 := by
  simp only [handle_client_connection]
  split
  · rfl
  split
  · rfl
  split
  · rfl
  · rfl

/-- The parsed form of the request used by the routing witness. -/
def apiDemoRequest : http_request_t :=
  { method := "GET", path := "/api/users", version := "HTTP/1.1",
    headers := "", body := "" }

end LitheServer

/-- C8: for every successfully parsed request, `handle_client_connection`
routes to `handle_api_request` exactly when the first five characters of the
parsed path are `"/api/"` and to `serve_static_file` with the parsed path
otherwise; on every return path (receive failure, parse failure, dispatch)
the client socket is closed exactly once. -/
theorem handle_client_connection_spec (bytes_received : Int) (buffer : String) :
    (handle_client_connection bytes_received buffer).2 = 1
    ∧ (∀ req, 0 < bytes_received →
        (parse_http_request (some buffer) false).2 = some req →
        (((handle_client_connection bytes_received buffer).1 = Dispatch.apiRequest req ↔
            req.path.take 5 = "/api/")
         ∧ (req.path.take 5 ≠ "/api/" →
            (handle_client_connection bytes_received buffer).1 =
              Dispatch.staticFile req.path))) := by
  refine ⟨handle_close_once bytes_received buffer, ?_⟩
  intro req hbr hsnd
  have hparse : parse_http_request (some buffer) false = (0, some req) := by
    rcases parse_http_request_cases (some buffer) false with hcase | ⟨req2, hcase⟩
    · rw [hcase] at hsnd
      exact Option.noConfusion hsnd
    · rw [hcase] at hsnd
      have hreq : req2 = req := Option.some.inj hsnd
      rw [hcase, hreq]
  have hval : handle_client_connection bytes_received buffer =
      (if pathIsApi req.path then (Dispatch.apiRequest req, 1)
       else (Dispatch.staticFile req.path, 1)) := by
    simp only [handle_client_connection]
    rw [if_neg (by omega : ¬ bytes_received ≤ 0)]
    rw [hparse]
    simp
  rcases hb : pathIsApi req.path with - | -
  · refine ⟨⟨?_, ?_⟩, ?_⟩
    · intro happ
      rw [hval, hb] at happ
      exact Dispatch.noConfusion happ
    · intro heq
      have hcontra := (pathIsApi_iff req.path).mpr heq
      rw [hb] at hcontra
      exact Bool.noConfusion hcontra
    · intro _
      rw [hval, hb]
      rfl
  · refine ⟨⟨fun _ => (pathIsApi_iff req.path).mp hb, fun _ => ?_⟩, ?_⟩
    · rw [hval, hb]
      rfl
    · intro hneq
      exact absurd ((pathIsApi_iff req.path).mp hb) hneq

/-- Witness for C8 at a concrete API request. -/
theorem handle_client_connection_spec_witness :
    (handle_client_connection 10 "GET /api/users HTTP/1.1\r\n").1 =
      Dispatch.apiRequest apiDemoRequest := by
  have h := (handle_client_connection_spec 10 "GET /api/users HTTP/1.1\r\n").2
    apiDemoRequest (by decide) (by decide)
  exact h.1.mpr (by decide)

/-- A content type long enough to overflow the 1024-byte headers buffer. -/
def longContentType : String := String.mk (List.replicate 1000 'a')

/-- Counterexample to C6 as stated: `build_http_response` writes its headers
with `snprintf` into the fixed 1024-byte `headers` field, so at a 1000
character content type the produced response does not carry the full template
(1084 characters here) in its headers: they are cut off at 1023 characters. -/
theorem build_http_response_truncation_counterexample :
    build_http_response 200 (some longContentType) "" ≠
      some { status_code := 200
             status_message := statusMessageOf 200
             headers := headerTemplate 200 (some longContentType) ""
             body := ""
             content_length := 0 } := by
  intro heqo
  have hsome : build_http_response 200 (some longContentType) "" =
      some { status_code := 200
             status_message := statusMessageOf 200
             headers := truncateTo (MAX_BUFFER_SIZE - 1)
               (headerTemplate 200 (some longContentType) "")
             body := ""
             content_length := 0 } := rfl
  rw [hsome] at heqo
  have heqr := Option.some.inj heqo
  have heq : truncateTo (MAX_BUFFER_SIZE - 1)
        (headerTemplate 200 (some longContentType) "") =
      headerTemplate 200 (some longContentType) "" :=
    congrArg http_response_t.headers heqr
  have hlen := congrArg String.length heq
  have hct : longContentType.length = 1000 := by
    show (List.replicate 1000 'a').length = 1000
    exact List.length_replicate 1000 'a'
  have e1 : ("HTTP/1.1 " : String).length = 9 := rfl
  have e2 : (toString (200 : Int)).length = 3 := rfl
  have e3 : (" " : String).length = 1 := rfl
  have e4 : (statusMessageOf 200).length = 2 := rfl
  have e5 : ("\r\n" : String).length = 2 := rfl
  have e6 : ("Content-Length: " : String).length = 16 := rfl
  have e7 : (toString ("" : String).length).length = 1 := rfl
  have e8 : ("Connection: close\r\n" : String).length = 19 := rfl
  have e9 : ("Server: QuickServer/1.0\r\n" : String).length = 25 := rfl
  have h2 : (headerTemplate 200 (some longContentType) "").length = 1084 := by
    simp only [headerTemplate, Option.getD_some, String.length_append,
      hct, e1, e2, e3, e4, e5, e6, e7, e8, e9]
  have h1 : (truncateTo (MAX_BUFFER_SIZE - 1)
      (headerTemplate 200 (some longContentType) "")).length = 1023 := by
    show ((headerTemplate 200 (some longContentType) "").data.take 1023).length = 1023
    rw [List.length_take]
    have hdl : (headerTemplate 200 (some longContentType) "").data.length = 1084 := h2
    omega
  omega

/-- C6 amended: for every body that fits the fixed 1024-byte `body` field
(for longer bodies the `strcpy` overflows the buffer, undefined behavior),
the response is a function of the three arguments only: the headers field is
the fixed template truncated to at most 1023 characters (the `snprintf`
bound for the 1024-byte buffer) and equals the full template whenever that
template fits; the status messages and `content_length` are as claimed. -/
theorem build_http_response_spec (status_code : Int) (content_type : Option String)
    (body : String) (hbody : body.length < MAX_BUFFER_SIZE) :
    build_http_response status_code content_type body =
      some { status_code := status_code
             status_message := statusMessageOf status_code
             headers := truncateTo (MAX_BUFFER_SIZE - 1)
               (headerTemplate status_code content_type body)
             body := body
             content_length := body.length }
    ∧ ((headerTemplate status_code content_type body).length ≤ MAX_BUFFER_SIZE - 1 →
        truncateTo (MAX_BUFFER_SIZE - 1) (headerTemplate status_code content_type body) =
          headerTemplate status_code content_type body)
    ∧ statusMessageOf 200 = "OK" ∧ statusMessageOf 404 = "Not Found"
    ∧ statusMessageOf 500 = "Internal Server Error"
    ∧ (∀ c : Int, c ≠ 200 → c ≠ 404 → c ≠ 500 → statusMessageOf c = "Unknown") := by
  refine ⟨?_, ?_, by decide, by decide, by decide, ?_⟩
  · unfold build_http_response
    rw [if_pos hbody]
  · intro hle
    have hle2 : (headerTemplate status_code content_type body).data.length ≤
        MAX_BUFFER_SIZE - 1 := hle
    show String.mk ((headerTemplate status_code content_type body).data.take
        (MAX_BUFFER_SIZE - 1)) = headerTemplate status_code content_type body
    rw [List.take_of_length_le hle2]
  · intro c h200 h404 h500
    unfold statusMessageOf
    rw [if_neg h200, if_neg h404, if_neg h500]

/-- Witness for C6 amended: a short concrete response where the body fits and
the template fits, and a nonstandard status code mapped to Unknown. -/
theorem build_http_response_spec_witness :
    build_http_response 200 (some "Content-Type: text/html") "hi" =
      some { status_code := 200
             status_message := statusMessageOf 200
             headers := truncateTo (MAX_BUFFER_SIZE - 1)
               (headerTemplate 200 (some "Content-Type: text/html") "hi")
             body := "hi"
             content_length := 2 } ∧
    truncateTo (MAX_BUFFER_SIZE - 1)
        (headerTemplate 200 (some "Content-Type: text/html") "hi") =
      headerTemplate 200 (some "Content-Type: text/html") "hi" ∧
    statusMessageOf 201 = "Unknown" :=
  ⟨(build_http_response_spec 200 (some "Content-Type: text/html") "hi" (by decide)).1,
   (build_http_response_spec 200 (some "Content-Type: text/html") "hi" (by decide)).2.1
     (by decide),
   (build_http_response_spec 200 (some "Content-Type: text/html") "hi" (by decide)).2.2.2.2.2
     201 (by decide) (by decide) (by decide)⟩

namespace LitheServer

theorem reach_invariant (sock : Int) (s : ServerState)
    (h : Reach (initState sock) s) :
    (∀ c hp, s.phase = ServerPhase.handlingConn c hp → s.openConns = [c.fd])
    ∧ ((s.phase = ServerPhase.loopTop ∨ s.phase = ServerPhase.stopped) →
        s.openConns = [])
    ∧ s.clients = (initState sock).clients
    ∧ s.client_count = 0 := by
  induction h with
  | refl =>
    refine ⟨?_, fun _ => rfl, rfl, rfl⟩
    intro c hp hph
    exact ServerPhase.noConfusion hph
  | tail hr hstep ih =>
    obtain ⟨ih1, ih2, ih3, ih4⟩ := ih
    cases hstep with
    | loopExit hphase hrun =>
      refine ⟨?_, fun _ => ih2 (Or.inl hphase), ih3, ih4⟩
      intro c hp hph
      exact ServerPhase.noConfusion hph
    | signalStop hphase =>
      refine ⟨?_, fun _ => ih2 (Or.inl hphase), ih3, ih4⟩
      intro c hp hph
      exact ServerPhase.noConfusion hph
    | acceptOk c2 hphase hrun =>
      refine ⟨?_, ?_, ih3, ih4⟩
      · intro c hp hph
        injection hph with hc hhp
        subst hc
        show c2.fd :: _ = [c2.fd]
        rw [ih2 (Or.inl hphase)]
      · rintro (hph | hph) <;> exact ServerPhase.noConfusion hph
    | acceptEintr hphase hrun =>
      exact ⟨ih1, ih2, ih3, ih4⟩
    | acceptFail hphase hrun =>
      refine ⟨?_, fun _ => ih2 (Or.inl hphase), ih3, ih4⟩
      intro c hp hph
      exact ServerPhase.noConfusion hph
    | recvStep c2 hphase =>
      refine ⟨?_, ?_, ih3, ih4⟩
      · intro c hp hph
        injection hph with hc hhp
        subst hc
        exact ih1 c2 HandlePhase.atRecv hphase
      · rintro (hph | hph) <;> exact ServerPhase.noConfusion hph
    | parseStep c2 hphase =>
      refine ⟨?_, ?_, ih3, ih4⟩
      · intro c hp hph
        injection hph with hc hhp
        subst hc
        exact ih1 c2 HandlePhase.atParse hphase
      · rintro (hph | hph) <;> exact ServerPhase.noConfusion hph
    | dispatchStep c2 hphase =>
      refine ⟨?_, ?_, ih3, ih4⟩
      · intro c hp hph
        injection hph with hc hhp
        subst hc
        exact ih1 c2 HandlePhase.atDispatch hphase
      · rintro (hph | hph) <;> exact ServerPhase.noConfusion hph
    | closeStep c2 hphase =>
      refine ⟨?_, ?_, ih3, ih4⟩
      · intro c hp hph
        exact ServerPhase.noConfusion hph
      · intro _
        show (ServerState.openConns _).erase c2.fd = []
        rw [ih1 c2 HandlePhase.atClose hphase]
        simp [List.erase_cons]

end LitheServer

/-- C1: the main accept loop processes connections strictly sequentially:
every reachable state has at most one open client connection, and from a
handling state every step either stays inside the same connection or returns
to the loop head with that connection closed before `accept` can run again;
the step relation (the sequential control flow of `main`) has no constructor
creating a thread or asynchronous task. -/
theorem main_loop_sequential (sock : Int) (s : ServerState)
    (h : Reach (initState sock) s) :
    s.openConns.length ≤ 1
    ∧ (∀ s2 c hp, Step s s2 → s.phase = ServerPhase.handlingConn c hp →
        ((∃ hp2, s2.phase = ServerPhase.handlingConn c hp2) ∨
         (s2.phase = ServerPhase.loopTop ∧ s2.openConns = []))) := by
  obtain ⟨inv1, inv2, -, -⟩ := reach_invariant sock s h
  constructor
  · cases hph : s.phase with
    | loopTop => rw [inv2 (Or.inl hph)]; simp
    | handlingConn c hp => rw [inv1 c hp hph]; simp
    | stopped => rw [inv2 (Or.inr hph)]; simp
  · intro s2 c hp hstep hph
    cases hstep with
    | loopExit hphase hrun =>
      rw [hph] at hphase
      exact ServerPhase.noConfusion hphase
    | signalStop hphase =>
      rw [hph] at hphase
      exact ServerPhase.noConfusion hphase
    | acceptOk c2 hphase hrun =>
      rw [hph] at hphase
      exact ServerPhase.noConfusion hphase
    | acceptEintr hphase hrun =>
      rw [hph] at hphase
      exact ServerPhase.noConfusion hphase
    | acceptFail hphase hrun =>
      rw [hph] at hphase
      exact ServerPhase.noConfusion hphase
    | recvStep c2 hphase =>
      rw [hph] at hphase
      injection hphase with hc hhp
      subst hc
      exact Or.inl ⟨_, rfl⟩
    | parseStep c2 hphase =>
      rw [hph] at hphase
      injection hphase with hc hhp
      subst hc
      exact Or.inl ⟨_, rfl⟩
    | dispatchStep c2 hphase =>
      rw [hph] at hphase
      injection hphase with hc hhp
      subst hc
      exact Or.inl ⟨_, rfl⟩
    | closeStep c2 hphase =>
      refine Or.inr ⟨rfl, ?_⟩
      show (ServerState.openConns _).erase c2.fd = []
      rw [inv1 c2 HandlePhase.atClose hphase]
      simp [List.erase_cons]

/-- Witness for C1 at the initial state of a concretely created server. -/
theorem main_loop_sequential_witness :
    (initState 3).openConns.length ≤ 1 :=
  (main_loop_sequential 3 (initState 3) Reach.refl).1

/-- C7: request handling has no persistent effect on global server state:
in every reachable state the clients array and client_count hold their
initial values (the clients array is never written, client_count stays 0),
and every step taken inside `handle_client_connection` preserves
`server_socket`, `server_running`, `clients` and `client_count`. -/
theorem handler_preserves_globals (sock : Int) (s : ServerState)
    (h : Reach (initState sock) s) :
    s.clients = (initState sock).clients
    ∧ s.client_count = 0
    ∧ (∀ s2 c hp, Step s s2 → s.phase = ServerPhase.handlingConn c hp →
        (s2.server_socket = s.server_socket ∧ s2.server_running = s.server_running
         ∧ s2.clients = s.clients ∧ s2.client_count = s.client_count)) := by
  obtain ⟨-, -, inv3, inv4⟩ := reach_invariant sock s h
  refine ⟨inv3, inv4, ?_⟩
  intro s2 c hp hstep hph
  cases hstep with
  | loopExit hphase hrun =>
    rw [hph] at hphase
    exact ServerPhase.noConfusion hphase
  | signalStop hphase =>
    rw [hph] at hphase
    exact ServerPhase.noConfusion hphase
  | acceptOk c2 hphase hrun =>
    rw [hph] at hphase
    exact ServerPhase.noConfusion hphase
  | acceptEintr hphase hrun =>
    rw [hph] at hphase
    exact ServerPhase.noConfusion hphase
  | acceptFail hphase hrun =>
    rw [hph] at hphase
    exact ServerPhase.noConfusion hphase
  | recvStep c2 hphase => exact ⟨rfl, rfl, rfl, rfl⟩
  | parseStep c2 hphase => exact ⟨rfl, rfl, rfl, rfl⟩
  | dispatchStep c2 hphase => exact ⟨rfl, rfl, rfl, rfl⟩
  | closeStep c2 hphase => exact ⟨rfl, rfl, rfl, rfl⟩

/-- Witness for C7 at the initial state of a concretely created server. -/
theorem handler_preserves_globals_witness :
    (initState 4).client_count = 0 :=
  (handler_preserves_globals 4 (initState 4) Reach.refl).2.1
